import Mathlib

/-!
Verification of the Minesweeper board engine (src/js/minesweeper.js).

The embedding translates the playable-core logic of the source file:
the grid data model (`data.grid`, `data.stats`), cell lookup
(`utility.getCell`), adjacency counting (`utility.countSurroundingMines`),
mine planting (`utility.plantMine`, `utility.plantAllMines`), grid
generation (`utility.generateGrid`), the recursive flood reveal
(`utility.revealEmptyAdjacent`), win/loss validation (`events.validate`)
and the cell click handler (`events.cellClicked`).

Presentation state lives in DOM CSS classes in the source; it is embedded
as finite sets of coordinates carrying each class.  Coordinates are
integers because the recursive helpers step outside the board by one cell
before their bounds checks fire.
-/

/-- One entry of `data.grid`: a plain object `{mined : bool}`
(source line 634). -/
structure Cell where
  mined : Bool
deriving DecidableEq, Repr

/-- `data.grid` is an array of arrays of cells (rows of columns). -/
abbrev Grid := List (List Cell)

/-- Coordinates handed around by the event handlers.  They are JS numbers
that may leave the board (e.g. `row - 1` at the top edge), hence `Int`. -/
abbrev Coord := Int × Int

/-- `data.stats` (source lines 96..107).  `mines` and `minesPlanted` are
`Int`: `minesPlanted` is decremented on each flag and can go below zero,
and `mines` can be overridden by any numeric input, including negatives. -/
structure Stats where
  clicks : Nat
  cols : Nat
  mines : Int
  minesPlanted : Int
  rows : Nat
  seconds : Nat
deriving DecidableEq, Repr

/-- The CSS classes the game logic reads and writes on the `td` cells,
one coordinate set per class (source `data.classes`, lines 72..80).
`numbered` records the one/two/.../eight glyph class added on a direct
reveal of a numbered cell; no code path reads it back. -/
structure Dom where
  unknown : Finset Coord
  flagged : Finset Coord
  sprite : Finset Coord
  empty : Finset Coord
  minedCls : Finset Coord
  miss : Finset Coord
  numbered : Finset (Coord × Nat)
deriving DecidableEq

/-- The mutable game globals: `data.active`, `data.grid`, `data.stats`
plus the DOM cell classes.  Before the first `init` the source keeps
`data.grid === null`; every state embedded here already holds a grid, so
the null case of `isGameActive` does not arise. -/
structure GameState where
  active : Bool
  grid : Grid
  stats : Stats
  dom : Dom
deriving DecidableEq

/-- `utility.isGameActive` (source lines 655..657).  The
`data.grid === null` disjunct only fires before the first game exists;
states of this embedding always carry a grid, leaving the `active` flag. -/
def isGameActive (s : GameState) : Bool :=
  s.active

/-- `utility.getCell` (source lines 641..652): bounds check against
`data.stats`, then the `data.grid[r][c]` existence check.  In-bounds
coordinates whose grid row is missing return `none` (the source would
fault dereferencing `undefined`; unreachable while grid and stats agree). -/
def getCell (s : GameState) (r c : Int) : Option Cell :=
  if 0 ≤ r ∧ r < (s.stats.rows : Int) ∧ 0 ≤ c ∧ c < (s.stats.cols : Int) then
    match s.grid[r.toNat]? with
    | some rowL => rowL[c.toNat]?
    | none => none
  else
    none

/-- One entry of `data.directions` (source lines 82..92). -/
structure Direction where
  x : Int
  y : Int
deriving DecidableEq, Repr

/-- `data.directions`: the 8 neighbour offsets, in source order. -/
def directions : List Direction :=
  [⟨-1, 0⟩, ⟨-1, 1⟩, ⟨0, 1⟩, ⟨1, 1⟩, ⟨1, 0⟩, ⟨1, -1⟩, ⟨0, -1⟩, ⟨-1, -1⟩]

/-- `utility.countSurroundingMines` (source lines 586..608): fold over
`data.directions`, asking `getCell(row + d.y, col + d.x)` and counting
the neighbours that exist and are mined. -/
def countSurroundingMines (s : GameState) (row col : Int) : Nat :=
  directions.foldl
    (fun surrounding dir =>
      match getCell s (row + dir.y) (col + dir.x) with
      | some cellToCheck => if cellToCheck.mined then surrounding + 1 else surrounding
      | none => surrounding)
    0

/-- The mined test the handlers perform on a fetched cell
(`cellToCheck.mined`); a missing cell reads as not mined. -/
def minedAt (s : GameState) (r c : Int) : Bool :=
  match getCell s r c with
  | some cellToCheck => cellToCheck.mined
  | none => false

/-- The bounds test of source line 699 (and of `getCell`), as a Bool. -/
def inBoundsB (s : GameState) (r c : Int) : Bool :=
  decide (0 ≤ r ∧ r < (s.stats.rows : Int) ∧ 0 ≤ c ∧ c < (s.stats.cols : Int))

/-- `utility.plantMine` (source lines 677..690): look the cell up in
`data.grid`, return `false` if it is absent or already mined, otherwise
set `mined` and return `true`.  The updated grid is returned alongside. -/
def plantMine (g : Grid) (r c : Nat) : Grid × Bool :=
  match g[r]? with
  | none => (g, false)
  | some rowL =>
    match rowL[c]? with
    | none => (g, false)
    | some cellToPlant =>
      if cellToPlant.mined then (g, false)
      else (g.set r (rowL.set c ⟨true⟩), true)

/-- `utility.plantAllMines` (source lines 659..673).  The stream of
`Math.floor(Math.random() * rows/cols)` draws is made explicit as a list
of candidate coordinates; the loop guard `minesPlanted < mines` is
checked before each draw, and exhausting the list before the guard fails
yields `none` (the run did not terminate within the supplied draws). -/
def plantAllMines (s : GameState) : List (Nat × Nat) → Option GameState
  | [] =>
    if s.stats.mines ≤ s.stats.minesPlanted then some s else none
  | (r, c) :: rest =>
    if s.stats.mines ≤ s.stats.minesPlanted then some s
    else
      match plantMine s.grid r c with
      | (g, true) =>
        let st := { s.stats with minesPlanted := s.stats.minesPlanted + 1 }
        plantAllMines { s with grid := g, stats := st } rest
      | (g, false) =>
        plantAllMines { s with grid := g } rest

/-- `utility.generateGrid` (source lines 610..639).  `sizeOfGame` is the
select-box multiplier; `numberOfMines` is the mine-count input after JS
numeric coercion, `none` standing for a value with `isNaN` true (which
leaves `data.stats.mines` untouched).  Rows and columns are multiplied
first, then the mine override is applied, then a mine-free grid of the
new dimensions is built. -/
def generateGrid (s : GameState) (sizeOfGame : Nat) (numberOfMines : Option Int) : GameState :=
  let rows := s.stats.rows * sizeOfGame
  let cols := s.stats.cols * sizeOfGame
  let mines := match numberOfMines with
    | some n => n
    | none => s.stats.mines
  { s with
    stats := { s.stats with rows := rows, cols := cols, mines := mines },
    grid := List.replicate rows (List.replicate cols ⟨false⟩) }

/-- The DOM before any cells are appended. -/
def emptyDom : Dom :=
  { unknown := ∅, flagged := ∅, sprite := ∅, empty := ∅,
    minedCls := ∅, miss := ∅, numbered := ∅ }

/-- The state `events.init` (new-game branch, source lines 293..300)
resets to before calling `utility.generateGrid`: default stats
(8 x 8, 10 mines, zero counters) and an inactive game. -/
def initData : GameState :=
  { active := false, grid := [],
    stats := { clicks := 0, cols := 8, mines := 10, minesPlanted := 0,
               rows := 8, seconds := 0 },
    dom := emptyDom }

/-- The new-game path of `events.init`: reset defaults, then
`utility.generateGrid` with the dialog inputs. -/
def newGame (sizeOfGame : Nat) (numberOfMines : Option Int) : GameState :=
  generateGrid initData sizeOfGame numberOfMines

/-- Number of mined cells in a grid. -/
def minedCount (g : Grid) : Nat :=
  (g.map fun rowL => (rowL.filter fun cellToCheck => cellToCheck.mined).length).sum

/-- Total number of cells in a grid. -/
def totalCells (g : Grid) : Nat :=
  (g.map List.length).sum

/-- A freshly generated mine-free board of the given dimensions and mine
target, as `utility.generateGrid` produces it. -/
def freshData (rows cols : Nat) (mineTarget : Int) : GameState :=
  { active := false,
    grid := List.replicate rows (List.replicate cols ⟨false⟩),
    stats := { clicks := 0, cols := cols, mines := mineTarget, minesPlanted := 0,
               rows := rows, seconds := 0 },
    dom := emptyDom }

/-- `utility.revealEmptyAdjacent` (source lines 696..724), worker.  The
source recurses on the shrinking set of `unknown`-classed cells; here the
recursion is driven by a fuel bound on its depth (each level removes one
cell from `u` before recursing, so `u.card + 1` fuel is never exhausted;
see `revealEmptyAdjacentFuel_congr`).  The set `u` holds the coordinates
whose td carries the `unknown` class; the result is that set after the
call, a cell being revealed exactly when it is removed. -/
def revealEmptyAdjacentFuel (s : GameState) : Nat → Finset Coord → Int → Int → Finset Coord
  | 0, u, _, _ => u
  | fuel + 1, u, r, c =>
    -- source line 699: off-board coordinates return at once
    if r < 0 ∨ (s.stats.rows : Int) ≤ r ∨ c < 0 ∨ (s.stats.cols : Int) ≤ c then u
    else
      let num := countSurroundingMines s r c
      -- source line 714: not unknown, mined, or numbered cells return unchanged
      if ((r, c) : Coord) ∉ u ∨ minedAt s r c = true ∨ 0 < num then u
      else
        -- source line 718: removeClass unknown (addClass empty is replayed by the wrapper)
        -- source lines 721..723: recurse through data.directions in order
        directions.foldl
          (fun acc dir => revealEmptyAdjacentFuel s fuel acc (r + dir.y) (c + dir.x))
          (u.erase ((r, c) : Coord))

/-- `utility.revealEmptyAdjacent` as a transformation of the game state:
run the recursion on the current `unknown` set with sufficient fuel; each
cell it removed also gains the `empty` class (source line 718). -/
def revealEmptyAdjacent (s : GameState) (r c : Int) : GameState :=
  let u := revealEmptyAdjacentFuel s (s.dom.unknown.card + 1) s.dom.unknown r c
  let dom' := { s.dom with unknown := u, empty := s.dom.empty ∪ (s.dom.unknown \ u) }
  { s with dom := dom' }

/-- The set of cells a flood-fill call reveals: those that lost their
`unknown` class. -/
def revealedSet (s : GameState) (r c : Int) : Finset Coord :=
  s.dom.unknown \ (revealEmptyAdjacent s r c).dom.unknown

/-- `events.validate` (source lines 488..556).  Returns the state after
the call and the result headline (`none` when the game was not active and
only the error notice was shown).  The td scan counts `unknown`-classed
mined cells and detects flagged unmined cells; the final check marks the
missed mines when the unknown-with-mine count is neither zero nor the
whole unknown count. -/
def validate (s : GameState) : GameState × Option String :=
  if isGameActive s = false then (s, none)
  else
    let s1 : GameState := { s with active := false }
    let numUnknownWithMine := (s.dom.unknown.filter fun p => minedAt s p.1 p.2 = true).card
    let falseFlagged : Bool := decide (∃ p ∈ s.dom.flagged, minedAt s p.1 p.2 = false)
    let result := if falseFlagged then "You Lose!" else "You Win!"
    if numUnknownWithMine ≠ 0 ∧ numUnknownWithMine ≠ s.dom.unknown.card then
      let missed := s.dom.unknown.filter fun p => minedAt s p.1 p.2 = true
      let dom' := { s.dom with
        unknown := s.dom.unknown.filter fun p => minedAt s p.1 p.2 = false,
        sprite := s.dom.sprite ∪ missed,
        minedCls := s.dom.minedCls ∪ missed,
        miss := s.dom.miss ∪ missed }
      ({ s1 with dom := dom' }, some "You Lose!")
    else
      (s1, some result)

/-- The auto-validation block at the end of `events.cellClicked`
(source lines 217..227): while the game is active, validate when all
mine flags are placed, then (on the possibly already finished state)
validate again when the remaining unknown cells are no more than the
mines-remaining counter.  The headline of the first successful
validation wins; a second call on a finished game only raises the
inactive-game notice. -/
def autoValidateChecks (s : GameState) : GameState × Option String :=
  if isGameActive s = true then
    let first := if s.stats.minesPlanted = 0 then validate s else (s, none)
    let second :=
      if ((first.1.dom.unknown.card : Int) ≤ first.1.stats.minesPlanted
          : Prop) then validate first.1
      else (first.1, none)
    (second.1, first.2 <|> second.2)
  else (s, none)

/-- `events.cellClicked` (source lines 158..231).  Inputs are the shift
key state and the td's `data-row`/`data-col` attributes; the returned
string is the validation headline when a validation that was allowed to
run ended the game. -/
def cellClicked (s0 : GameState) (shiftKey : Bool) (r c : Int) : GameState × Option String :=
  -- source line 171: the click counter moves before the cell lookup is inspected
  let stats1 := { s0.stats with clicks := s0.stats.clicks + 1 }
  let s : GameState := { s0 with stats := stats1 }
  match getCell s r c with
  | none => (s, none)
  | some currentCell =>
    if shiftKey then
      let p : Coord := (r, c)
      -- source line 178: removeClass unknown, addClass sprite
      let dom1 := { s.dom with unknown := s.dom.unknown.erase p, sprite := insert p s.dom.sprite }
      if p ∈ s.dom.flagged then
        -- source lines 182..183: unflag, restore unknown, add a mine back to the counter
        let dom2 := { dom1 with flagged := dom1.flagged.erase p, unknown := insert p dom1.unknown }
        let stats2 := { s.stats with minesPlanted := s.stats.minesPlanted + 1 }
        autoValidateChecks { s with dom := dom2, stats := stats2 }
      else
        -- source lines 186..187: flag and take a mine off the counter
        let dom2 := { dom1 with flagged := insert p dom1.flagged }
        let stats2 := { s.stats with minesPlanted := s.stats.minesPlanted - 1 }
        autoValidateChecks { s with dom := dom2, stats := stats2 }
    else
      if currentCell.mined = false then
        let num := countSurroundingMines s r c
        if num = 0 then
          -- source line 200: flood reveal
          autoValidateChecks (revealEmptyAdjacent s r c)
        else
          -- source line 203: reveal this one cell with its number glyph
          let p : Coord := (r, c)
          let dom2 := { s.dom with
            unknown := s.dom.unknown.erase p,
            sprite := insert p s.dom.sprite,
            empty := insert p s.dom.empty,
            numbered := insert (p, num) s.dom.numbered }
          autoValidateChecks { s with dom := dom2 }
      else
        -- source lines 208..212: show the mine and end the game; clickedMine
        -- suppresses the auto-validation block
        let p : Coord := (r, c)
        let dom2 := { s.dom with
          minedCls := insert p s.dom.minedCls, sprite := insert p s.dom.sprite }
        validate { s with dom := dom2 }


/-- The conditions under which the flood fill reveals a cell and recurses
from it (source lines 699 and 714): on the board, carrying the `unknown`
class, unmined, and with no surrounding mines. -/
def goodMem (s : GameState) (u : Finset Coord) (p : Coord) : Prop :=
  p ∈ u ∧ 0 ≤ p.1 ∧ p.1 < (s.stats.rows : Int) ∧ 0 ≤ p.2 ∧ p.2 < (s.stats.cols : Int)
    ∧ minedAt s p.1 p.2 = false ∧ countSurroundingMines s p.1 p.2 = 0

instance (s : GameState) (u : Finset Coord) (p : Coord) : Decidable (goodMem s u p) := by
  unfold goodMem; infer_instance

/-- Connectivity through zero-adjacency unknown unmined cells: `Reach s u
a b` holds when `b` is joined to `a` by a chain of `data.directions`
steps all of whose cells satisfy `goodMem`. -/
inductive Reach (s : GameState) (u : Finset Coord) : Coord → Coord → Prop
  | refl (p : Coord) : goodMem s u p → Reach s u p p
  | step (a p : Coord) (dir : Direction) (q : Coord) :
      Reach s u a p → dir ∈ directions → q = (p.1 + dir.y, p.2 + dir.x) →
      goodMem s u q → Reach s u a q


/-- A 1 x 3 mine-free board whose middle cell is flagged (so it lost the
`unknown` class): the flag splits the zero-adjacency region. -/
def barrierState : GameState :=
  { active := true,
    grid := [[⟨false⟩, ⟨false⟩, ⟨false⟩]],
    stats := { clicks := 0, cols := 3, mines := 0, minesPlanted := 0, rows := 1, seconds := 0 },
    dom := { unknown := {((0 : Int), (0 : Int)), ((0 : Int), (2 : Int))},
             flagged := {((0 : Int), (1 : Int))},
             sprite := ∅, empty := ∅, minedCls := ∅, miss := ∅, numbered := ∅ } }

/-- A 1 x 3 board with a mine in the right cell and every cell unknown:
cell (0,1) is a numbered (adjacency 1) cell bordering the zero region
{(0,0)}. -/
def borderState : GameState :=
  { active := true,
    grid := [[⟨false⟩, ⟨false⟩, ⟨true⟩]],
    stats := { clicks := 0, cols := 3, mines := 1, minesPlanted := 1, rows := 1, seconds := 0 },
    dom := { unknown := {((0 : Int), (0 : Int)), ((0 : Int), (1 : Int)), ((0 : Int), (2 : Int))},
             flagged := ∅,
             sprite := ∅, empty := ∅, minedCls := ∅, miss := ∅, numbered := ∅ } }


/-- A 1 x 2 board, mine at (0,0) still unknown, safe cell (0,1) already
revealed: the state in which clicking the mine is the last move. -/
def mineClickState : GameState :=
  { active := true,
    grid := [[⟨true⟩, ⟨false⟩]],
    stats := { clicks := 0, cols := 2, mines := 1, minesPlanted := 1, rows := 1, seconds := 0 },
    dom := { unknown := {((0 : Int), (0 : Int))}, flagged := ∅,
             sprite := {((0 : Int), (1 : Int))}, empty := {((0 : Int), (1 : Int))},
             minedCls := ∅, miss := ∅, numbered := ∅ } }

/-- A 1 x 2 board, mine at (0,0), both cells unknown, nothing flagged:
the unknown set holds one mine among two cells. -/
def missState : GameState :=
  { active := true,
    grid := [[⟨true⟩, ⟨false⟩]],
    stats := { clicks := 0, cols := 2, mines := 1, minesPlanted := 1, rows := 1, seconds := 0 },
    dom := { unknown := {((0 : Int), (0 : Int)), ((0 : Int), (1 : Int))}, flagged := ∅,
             sprite := ∅, empty := ∅, minedCls := ∅, miss := ∅, numbered := ∅ } }

/-! ## Adjacency counting (C6) -/

/-- The neighbour offset list exactly as the spec writes it, as
`(x, y)` pairs. -/
def specNeighborOffsets : List (Int × Int) :=
  [(-1, 0), (-1, 1), (0, 1), (1, 1), (1, 0), (1, -1), (0, -1), (-1, -1)]

/-- The spec's description of adjacency counting: over the 8 offsets,
count the neighbours that are in-bounds and mined. -/
def specSurroundingMines (s : GameState) (row col : Int) : Nat :=
  specNeighborOffsets.countP fun o =>
    inBoundsB s (row + o.2) (col + o.1) && minedAt s (row + o.2) (col + o.1)

theorem getCell_some_bounds {s : GameState} {r c : Int} {cell : Cell}
    (h : getCell s r c = some cell) :
    0 ≤ r ∧ r < (s.stats.rows : Int) ∧ 0 ≤ c ∧ c < (s.stats.cols : Int) := by
  by_contra hb
  unfold getCell at h
  rw [if_neg hb] at h
  exact Option.noConfusion h

theorem minedAt_imp_inBounds {s : GameState} {r c : Int}
    (h : minedAt s r c = true) : inBoundsB s r c = true := by
  unfold minedAt at h
  rcases hg : getCell s r c with _ | cell
  · rw [hg] at h; exact absurd h (by simp)
  · exact decide_eq_true (getCell_some_bounds hg)

theorem countSurroundingMines_foldl (s : GameState) (row col : Int)
    (l : List Direction) (n : Nat) :
    l.foldl
      (fun surrounding dir =>
        match getCell s (row + dir.y) (col + dir.x) with
        | some cellToCheck => if cellToCheck.mined then surrounding + 1 else surrounding
        | none => surrounding)
      n
    = n + l.countP (fun dir => minedAt s (row + dir.y) (col + dir.x)) := by
  induction l generalizing n with
  | nil => simp
  | cons d l ih =>
    have hbody :
        (match getCell s (row + d.y) (col + d.x) with
          | some cellToCheck => if cellToCheck.mined then n + 1 else n
          | none => n)
        = if minedAt s (row + d.y) (col + d.x) then n + 1 else n := by
      rcases hg : getCell s (row + d.y) (col + d.x) with _ | cell
      · simp [minedAt, hg]
      · simp [minedAt, hg]
    rw [List.foldl_cons, hbody, List.countP_cons, ih]
    by_cases hm : minedAt s (row + d.y) (col + d.x) = true
    · simp [hm]; omega
    · simp only [Bool.not_eq_true] at hm
      simp [hm]

theorem countSurroundingMines_eq_countP (s : GameState) (row col : Int) :
    countSurroundingMines s row col
      = directions.countP (fun dir => minedAt s (row + dir.y) (col + dir.x)) := by
  unfold countSurroundingMines
  rw [countSurroundingMines_foldl]
  simp

/-- Claim C6: `countSurroundingMines` returns the number of the 8
neighbour offsets whose coordinate is in-bounds and mined; out-of-bounds
neighbours contribute nothing, the offset `(0,0)` (the cell itself) is
not among the offsets, and the result is at most 8. -/
theorem countSurroundingMines_spec (s : GameState) (row col : Int) :
    countSurroundingMines s row col = specSurroundingMines s row col
      ∧ ((0, 0) : Int × Int) ∉ specNeighborOffsets
      ∧ countSurroundingMines s row col ≤ 8 := by
  have hmap : specNeighborOffsets = directions.map (fun d => (d.x, d.y)) := by rfl
  have heq : countSurroundingMines s row col = specSurroundingMines s row col := by
    rw [countSurroundingMines_eq_countP]
    unfold specSurroundingMines
    rw [hmap, List.countP_map]
    apply List.countP_congr
    intro d _
    rcases hm : minedAt s (row + d.y) (col + d.x) with _ | _
    · simp [Function.comp, hm]
    · simp [Function.comp, hm, minedAt_imp_inBounds hm]
  refine ⟨heq, by decide, ?_⟩
  rw [countSurroundingMines_eq_countP]
  calc directions.countP (fun dir => minedAt s (row + dir.y) (col + dir.x))
      ≤ directions.length := List.countP_le_length _
    _ = 8 := by rfl

/-! ## Mine-count configuration input (C8) -/

/-- Claim C8: a mine-count input that is not interpretable as a number
(`isNaN` true, embedded as `none`) is ignored and the default of 10 set
by `events.init` is kept; a numeric input overrides it. -/
theorem generateGrid_mine_default (sizeOfGame : Nat) (n : Int) :
    (newGame sizeOfGame none).stats.mines = 10
      ∧ (newGame sizeOfGame (some n)).stats.mines = n := by
  exact ⟨rfl, rfl⟩

/-! ## The click counter (C10) -/

theorem validate_stats (s : GameState) : (validate s).1.stats = s.stats := by
  unfold validate
  split
  · rfl
  · dsimp only
    split <;> rfl

theorem autoValidateChecks_stats_clicks (s : GameState) :
    (autoValidateChecks s).1.stats.clicks = s.stats.clicks := by
  unfold autoValidateChecks
  split
  · dsimp only
    split
    · split <;> simp [validate_stats]
    · split <;> simp [validate_stats]
  · rfl

theorem revealEmptyAdjacent_stats (s : GameState) (r c : Int) :
    (revealEmptyAdjacent s r c).stats = s.stats := by
  rfl

/-- Claim C10: every `cellClicked` call increments the click counter by
exactly one — shift-clicks and clicks whose coordinates resolve to no
cell included, since the increment precedes the cell-existence check. -/
theorem cellClicked_clicks_increment (s : GameState) (shiftKey : Bool) (r c : Int) :
    (cellClicked s shiftKey r c).1.stats.clicks = s.stats.clicks + 1 := by
  unfold cellClicked
  rcases hg : getCell { s with stats := { s.stats with clicks := s.stats.clicks + 1 } } r c
    with _ | cell
  · simp [hg]
  · simp only [hg]
    split
    · split <;> simp [autoValidateChecks_stats_clicks]
    · split
      · split
        · simp [autoValidateChecks_stats_clicks, revealEmptyAdjacent_stats]
        · simp [autoValidateChecks_stats_clicks]
      · simp [validate_stats]

/-! ## Mine planting (C3, C7) -/

theorem filter_length_set_mined (row : List Cell) :
    ∀ (c : Nat), row[c]? = some ⟨false⟩ →
      ((row.set c ⟨true⟩).filter (fun x => x.mined)).length
        = (row.filter (fun x => x.mined)).length + 1 := by
  induction row with
  | nil => intro c h; simp at h
  | cons x xs ih =>
    intro c h
    cases c with
    | zero =>
      simp only [List.getElem?_cons_zero, Option.some.injEq] at h
      subst h
      simp [List.filter]
    | succ c =>
      simp only [List.getElem?_cons_succ] at h
      cases hx : x.mined <;> simp [List.filter, hx, ih c h]

theorem minedCount_set (g : Grid) :
    ∀ (r : Nat) (rowL : List Cell), g[r]? = some rowL →
      ∀ (c : Nat), rowL[c]? = some ⟨false⟩ →
        minedCount (g.set r (rowL.set c ⟨true⟩)) = minedCount g + 1 := by
  induction g with
  | nil => intro r rowL h; simp at h
  | cons x xs ih =>
    intro r rowL h c hc
    cases r with
    | zero =>
      simp only [List.getElem?_cons_zero, Option.some.injEq] at h
      subst h
      simp only [List.set_cons_zero, minedCount, List.map_cons, List.sum_cons]
      rw [filter_length_set_mined _ c hc]
      omega
    | succ r =>
      simp only [List.getElem?_cons_succ] at h
      simp only [List.set_cons_succ, minedCount, List.map_cons, List.sum_cons]
      have := ih r rowL h c hc
      simp only [minedCount] at this
      omega

theorem map_length_set (g : Grid) :
    ∀ (r : Nat) (rowL rowB : List Cell), g[r]? = some rowL →
      rowB.length = rowL.length →
      (g.set r rowB).map List.length = g.map List.length := by
  induction g with
  | nil => intro r rowL rowB h; simp at h
  | cons x xs ih =>
    intro r rowL rowB h hlen
    cases r with
    | zero =>
      simp only [List.getElem?_cons_zero, Option.some.injEq] at h
      subst h
      simp [hlen]
    | succ r =>
      simp only [List.getElem?_cons_succ] at h
      simp [ih r rowL rowB h hlen]

theorem plantMine_true {g : Grid} {r c : Nat} {g' : Grid}
    (h : plantMine g r c = (g', true)) :
    minedCount g' = minedCount g + 1
      ∧ g'.map List.length = g.map List.length := by
  unfold plantMine at h
  rcases hr : g[r]? with _ | rowL
  · rw [hr] at h; simp at h
  · rw [hr] at h
    dsimp only at h
    rcases hc : rowL[c]? with _ | cell
    · rw [hc] at h; simp at h
    · rw [hc] at h
      dsimp only at h
      rcases hcm : cell.mined with _ | _
      · rw [if_neg (by simp [hcm])] at h
        have hcell : cell = ⟨false⟩ := by cases cell; simp_all
        subst hcell
        have hg' : g' = g.set r (rowL.set c ⟨true⟩) := by
          simpa using congrArg Prod.fst h.symm
        subst hg'
        exact ⟨minedCount_set g r rowL hr c hc,
          map_length_set g r rowL _ hr (by simp)⟩
      · rw [if_pos hcm] at h
        simp at h

theorem plantMine_false {g : Grid} {r c : Nat} {g' : Grid}
    (h : plantMine g r c = (g', false)) : g' = g := by
  unfold plantMine at h
  rcases hr : g[r]? with _ | rowL
  · rw [hr] at h; simpa using congrArg Prod.fst h.symm
  · rw [hr] at h
    dsimp only at h
    rcases hc : rowL[c]? with _ | cell
    · rw [hc] at h; simpa using congrArg Prod.fst h.symm
    · rw [hc] at h
      dsimp only at h
      rcases hcm : cell.mined with _ | _
      · rw [if_neg (by simp [hcm])] at h
        simp at h
      · rw [if_pos hcm] at h
        simpa using congrArg Prod.fst h.symm

theorem plantMine_fresh {g : Grid} {r c : Nat} {rowL : List Cell} {cell : Cell}
    (hr : g[r]? = some rowL) (hc : rowL[c]? = some cell) (hm : cell.mined = false) :
    plantMine g r c = (g.set r (rowL.set c ⟨true⟩), true) := by
  unfold plantMine
  rw [hr]
  dsimp only
  rw [hc]
  dsimp only
  rw [if_neg (by simp [hm])]

theorem plantMine_mined {g : Grid} {r c : Nat} {rowL : List Cell} {cell : Cell}
    (hr : g[r]? = some rowL) (hc : rowL[c]? = some cell) (hm : cell.mined = true) :
    plantMine g r c = (g, false) := by
  unfold plantMine
  rw [hr]
  dsimp only
  rw [hc]
  dsimp only
  rw [if_pos hm]

theorem plantAllMines_some_invariant :
    ∀ (picks : List (Nat × Nat)) (s s' : GameState),
      plantAllMines s picks = some s' →
      (minedCount s.grid : Int) = s.stats.minesPlanted →
      s.stats.minesPlanted ≤ s.stats.mines →
      (minedCount s'.grid : Int) = s.stats.mines
        ∧ s'.grid.map List.length = s.grid.map List.length
        ∧ s'.stats.rows = s.stats.rows ∧ s'.stats.cols = s.stats.cols
        ∧ s'.stats.mines = s.stats.mines := by
  intro picks
  induction picks with
  | nil =>
    intro s s' h hinv hle
    unfold plantAllMines at h
    split at h
    · cases h
      refine ⟨?_, rfl, rfl, rfl, rfl⟩
      omega
    · cases h
  | cons p rest ih =>
    obtain ⟨pr, pc⟩ := p
    intro s s' h hinv hle
    unfold plantAllMines at h
    split at h
    · cases h
      refine ⟨?_, rfl, rfl, rfl, rfl⟩
      omega
    · rcases hpm : plantMine s.grid pr pc with ⟨g, b⟩
      rw [hpm] at h
      cases b with
      | true =>
        obtain ⟨hcnt, hmap⟩ := plantMine_true hpm
        have hinv2 : (minedCount g : Int) = s.stats.minesPlanted + 1 := by
          rw [hcnt]; push_cast; omega
        have hle2 : s.stats.minesPlanted + 1 ≤ s.stats.mines := by omega
        obtain ⟨h1, h2, h3, h4, h5⟩ := ih _ s' h (by simpa using hinv2) (by simpa using hle2)
        exact ⟨by simpa using h1, (by simpa using h2 : _ = List.map List.length g).trans hmap,
          by simpa using h3, by simpa using h4, by simpa using h5⟩
      | false =>
        have hg : g = s.grid := plantMine_false hpm
        subst hg
        have := ih _ s' h (by simpa using hinv) (by simpa using hle)
        simpa using this

theorem minedCount_replicate (rows cols : Nat) :
    minedCount (List.replicate rows (List.replicate cols (⟨false⟩ : Cell))) = 0 := by
  induction rows with
  | zero => rfl
  | succ n ih =>
    simp only [List.replicate_succ, minedCount, List.map_cons, List.sum_cons] at *
    have : (List.replicate cols (⟨false⟩ : Cell)).filter (fun x => x.mined) = [] := by
      induction cols with
      | zero => rfl
      | succ m ihm => simpa [List.replicate_succ, List.filter] using ihm
    simp [this, ih]

/-- Claim C3: on a freshly generated mine-free board with a valid target
`0 ≤ mineCount < rows * cols`, any terminating run of the planting loop
leaves exactly `mineCount` mined cells and the dimensions intact, and an
attempt on an already-mined cell changes nothing. -/
theorem plantAllMines_exact_count (rows cols : Nat) (mineCount : Int)
    (hrows : 1 ≤ rows) (hcols : 1 ≤ cols)
    (hnonneg : 0 ≤ mineCount) (hlt : mineCount < (rows : Int) * cols) :
    (∀ (picks : List (Nat × Nat)) (s' : GameState),
        plantAllMines (freshData rows cols mineCount) picks = some s' →
        (minedCount s'.grid : Int) = mineCount
          ∧ s'.grid.length = rows
          ∧ (∀ rowL ∈ s'.grid, rowL.length = cols)
          ∧ s'.stats.rows = rows ∧ s'.stats.cols = cols)
      ∧ (∀ (g : Grid) (r c : Nat) (rowL : List Cell) (cell : Cell),
          g[r]? = some rowL → rowL[c]? = some cell → cell.mined = true →
          plantMine g r c = (g, false)) := by
  constructor
  · intro picks s' h
    have hinv : (minedCount (freshData rows cols mineCount).grid : Int)
        = (freshData rows cols mineCount).stats.minesPlanted := by
      simp [freshData, minedCount_replicate]
    have hle : (freshData rows cols mineCount).stats.minesPlanted
        ≤ (freshData rows cols mineCount).stats.mines := by
      simpa [freshData] using hnonneg
    obtain ⟨hcnt, hmap, hr, hc, _⟩ := plantAllMines_some_invariant picks _ s' h hinv hle
    have hmap' : s'.grid.map List.length = List.replicate rows cols := by
      simpa [freshData, List.map_replicate] using hmap
    refine ⟨by simpa [freshData] using hcnt, ?_, ?_, by simpa [freshData] using hr,
      by simpa [freshData] using hc⟩
    · have := congrArg List.length hmap'
      simpa using this
    · intro rowL hmem
      have : rowL.length ∈ s'.grid.map List.length := List.mem_map_of_mem _ hmem
      rw [hmap'] at this
      exact List.eq_of_mem_replicate this
  · intro g r c rowL cell hr hc hm
    exact plantMine_mined hr hc hm

theorem plantAllMines_exact_count_witness :
    ((1 ≤ 1 ∧ 1 ≤ 2 ∧ (0 : Int) ≤ 1 ∧ (1 : Int) < ((1 : Nat) : Int) * (2 : Nat))
      ∧ ((∀ (picks : List (Nat × Nat)) (s' : GameState),
            plantAllMines (freshData 1 2 1) picks = some s' →
            (minedCount s'.grid : Int) = 1
              ∧ s'.grid.length = 1
              ∧ (∀ rowL ∈ s'.grid, rowL.length = 2)
              ∧ s'.stats.rows = 1 ∧ s'.stats.cols = 2)
          ∧ (∀ (g : Grid) (r c : Nat) (rowL : List Cell) (cell : Cell),
              g[r]? = some rowL → rowL[c]? = some cell → cell.mined = true →
              plantMine g r c = (g, false)))) :=
  ⟨⟨le_refl 1, by decide, by decide, by decide⟩,
    plantAllMines_exact_count 1 2 1 (le_refl 1) (by decide) (by decide) (by decide)⟩

theorem minedCount_le_totalCells (g : Grid) : minedCount g ≤ totalCells g := by
  unfold minedCount totalCells
  induction g with
  | nil => simp
  | cons row rows ih =>
    simp only [List.map_cons, List.sum_cons]
    have := List.length_filter_le (fun x => x.mined) row
    omega

theorem plantAllMines_none_of_overfull :
    ∀ (picks : List (Nat × Nat)) (s : GameState),
      (minedCount s.grid : Int) = s.stats.minesPlanted →
      (totalCells s.grid : Int) < s.stats.mines →
      plantAllMines s picks = none := by
  intro picks
  induction picks with
  | nil =>
    intro s hinv hover
    unfold plantAllMines
    rw [if_neg (by have := minedCount_le_totalCells s.grid; omega)]
  | cons p rest ih =>
    obtain ⟨pr, pc⟩ := p
    intro s hinv hover
    unfold plantAllMines
    rw [if_neg (by have := minedCount_le_totalCells s.grid; omega)]
    rcases hpm : plantMine s.grid pr pc with ⟨g, b⟩
    cases b with
    | true =>
      obtain ⟨hcnt, hmap⟩ := plantMine_true hpm
      have htot : totalCells g = totalCells s.grid := by
        unfold totalCells; rw [hmap]
      dsimp only
      exact ih { s with grid := g, stats := { s.stats with minesPlanted := s.stats.minesPlanted + 1 } }
        (by dsimp only; rw [hcnt]; push_cast; omega)
        (by dsimp only; rw [htot]; omega)
    | false =>
      have hg := plantMine_false hpm
      subst hg
      dsimp only
      exact ih { s with grid := s.grid } (by simpa using hinv) (by simpa using hover)

theorem filter_length_lt_exists (row : List Cell) :
    (row.filter (fun x => x.mined)).length < row.length →
    ∃ (c : Nat) (cell : Cell), row[c]? = some cell ∧ cell.mined = false := by
  induction row with
  | nil => intro h; simp at h
  | cons x xs ih =>
    intro h
    rcases hx : x.mined with _ | _
    · exact ⟨0, x, by simp, hx⟩
    · rw [List.filter_cons_of_pos (by simp [hx])] at h
      simp only [List.length_cons] at h
      obtain ⟨c, cell, h1, h2⟩ := ih (by omega)
      exact ⟨c + 1, cell, by simpa using h1, h2⟩

theorem minedCount_lt_exists (g : Grid) :
    minedCount g < totalCells g →
    ∃ (r : Nat) (rowL : List Cell) (c : Nat) (cell : Cell),
      g[r]? = some rowL ∧ rowL[c]? = some cell ∧ cell.mined = false := by
  induction g with
  | nil => intro h; simp [minedCount, totalCells] at h
  | cons row rows ih =>
    intro h
    simp only [minedCount, totalCells, List.map_cons, List.sum_cons] at h
    by_cases hrow : (row.filter (fun x => x.mined)).length < row.length
    · obtain ⟨c, cell, h1, h2⟩ := filter_length_lt_exists row hrow
      exact ⟨0, row, c, cell, by simp, h1, h2⟩
    · have hlt : minedCount rows < totalCells rows := by
        unfold minedCount totalCells
        omega
      obtain ⟨r, rowL, c, cell, h1, h2, h3⟩ := ih hlt
      exact ⟨r + 1, rowL, c, cell, by simpa using h1, h2, h3⟩

theorem plantMine_true_shape {g : Grid} {r c : Nat} {g' : Grid}
    (h : plantMine g r c = (g', true)) :
    ∃ (rowA : List Cell) (cellA : Cell),
      g[r]? = some rowA ∧ rowA[c]? = some cellA ∧ cellA.mined = false
        ∧ g' = g.set r (rowA.set c ⟨true⟩) := by
  unfold plantMine at h
  rcases hr : g[r]? with _ | rowA
  · rw [hr] at h; simp at h
  · rw [hr] at h
    dsimp only at h
    rcases hc : rowA[c]? with _ | cellA
    · rw [hc] at h; simp at h
    · rw [hc] at h
      dsimp only at h
      rcases hcm : cellA.mined with _ | _
      · rw [if_neg (by simp [hcm])] at h
        exact ⟨rowA, cellA, rfl, hc, hcm, by simpa using (congrArg Prod.fst h).symm⟩
      · rw [if_pos hcm] at h
        simp at h

theorem plantAllMines_isSome :
    ∀ (l : List (Nat × Nat)) (s : GameState),
      (minedCount s.grid : Int) = s.stats.minesPlanted →
      s.stats.mines ≤ (totalCells s.grid : Int) →
      (∀ (r c : Nat) (rowL : List Cell) (cell : Cell),
          s.grid[r]? = some rowL → rowL[c]? = some cell → cell.mined = false →
          (r, c) ∈ l) →
      ∃ s', plantAllMines s l = some s' := by
  intro l
  induction l with
  | nil =>
    intro s hinv htot hmem
    by_cases hg : s.stats.mines ≤ s.stats.minesPlanted
    · exact ⟨s, by unfold plantAllMines; rw [if_pos hg]⟩
    · exfalso
      have hlt : minedCount s.grid < totalCells s.grid := by omega
      obtain ⟨r, rowL, c, cell, h1, h2, h3⟩ := minedCount_lt_exists s.grid hlt
      exact absurd (hmem r c rowL cell h1 h2 h3) (List.not_mem_nil _)
  | cons p rest ih =>
    obtain ⟨pr, pc⟩ := p
    intro s hinv htot hmem
    by_cases hg : s.stats.mines ≤ s.stats.minesPlanted
    · exact ⟨s, by unfold plantAllMines; rw [if_pos hg]⟩
    · rcases hpm : plantMine s.grid pr pc with ⟨g, b⟩
      cases b with
      | true =>
        obtain ⟨hcnt, hmap⟩ := plantMine_true hpm
        obtain ⟨rowA, cellA, hra, hca, hcmf, hgeq⟩ := plantMine_true_shape hpm
        have hprlt : pr < s.grid.length := (List.getElem?_eq_some.mp hra).1
        have hpclt : pc < rowA.length := (List.getElem?_eq_some.mp hca).1
        have htot2 : totalCells g = totalCells s.grid := by
          unfold totalCells; rw [hmap]
        have hmem2 : ∀ (r c : Nat) (rowL : List Cell) (cell : Cell),
            g[r]? = some rowL → rowL[c]? = some cell → cell.mined = false →
            (r, c) ∈ rest := by
          intro r c rowL cell h1 h2 h3
          subst hgeq
          by_cases hrr : r = pr
          · subst hrr
            rw [List.getElem?_set_eq_of_lt _ hprlt] at h1
            cases h1
            by_cases hcc : c = pc
            · subst hcc
              rw [List.getElem?_set_eq_of_lt _ hpclt] at h2
              cases h2
              simp at h3
            · rw [List.getElem?_set_ne (by omega)] at h2
              have := hmem r c rowA cell hra h2 h3
              simpa [hcc] using this
          · rw [List.getElem?_set_ne (by omega)] at h1
            have := hmem r c rowL cell h1 h2 h3
            simp only [List.mem_cons] at this
            rcases this with heq | hmem'
            · exact absurd (congrArg Prod.fst heq) (by simpa using hrr)
            · exact hmem'
        obtain ⟨s', hs'⟩ := ih { s with grid := g, stats := { s.stats with minesPlanted := s.stats.minesPlanted + 1 } }
          (by dsimp only; rw [hcnt]; push_cast; omega)
          (by dsimp only; rw [htot2]; omega) (by dsimp only; exact hmem2)
        refine ⟨s', ?_⟩
        unfold plantAllMines
        rw [if_neg hg, hpm]
        exact hs'
      | false =>
        have hgg := plantMine_false hpm
        subst hgg
        have hmem2 : ∀ (r c : Nat) (rowL : List Cell) (cell : Cell),
            s.grid[r]? = some rowL → rowL[c]? = some cell → cell.mined = false →
            (r, c) ∈ rest := by
          intro r c rowL cell h1 h2 h3
          have := hmem r c rowL cell h1 h2 h3
          simp only [List.mem_cons] at this
          rcases this with heq | hmem'
          · exfalso
            have hr : r = pr := congrArg Prod.fst heq
            have hc : c = pc := congrArg Prod.snd heq
            subst hr; subst hc
            have := plantMine_fresh h1 h2 h3
            rw [this] at hpm
            simp at hpm
          · exact hmem'
        obtain ⟨s', hs'⟩ := ih { s with grid := s.grid }
          (by simpa using hinv) (by simpa using htot) (by dsimp only; exact hmem2)
        refine ⟨s', ?_⟩
        unfold plantAllMines
        rw [if_neg hg, hpm]
        simpa using hs'

theorem totalCells_replicate (rows cols : Nat) :
    totalCells (List.replicate rows (List.replicate cols (⟨false⟩ : Cell))) = rows * cols := by
  simp [totalCells, List.map_replicate, List.sum_replicate, smul_eq_mul]

/-- Claim C7 counterexample: with `mineCount = rows * cols = 1` the
planting loop does terminate (the single draw `(0,0)` completes the
target), refuting "for every mineCount ≥ rows × cols it never
terminates". -/
theorem plantAllMines_terminates_at_full :
    ((1 : Nat) : Int) * ((1 : Nat) : Int) ≤ (1 : Int)
      ∧ (plantAllMines (freshData 1 1 1) [(0, 0)]).isSome = true := by
  exact ⟨by decide, by decide⟩

/-- Claim C7 (amended): the planting loop can terminate exactly up to
`mineCount ≤ rows * cols` — some draw sequence completes it — while for
`mineCount > rows * cols` no draw sequence terminates it, because
`minesPlanted`, which mirrors the number of mined cells, can never reach
`mineCount`. -/
theorem plantAllMines_termination_iff (rows cols : Nat) (mineCount : Int)
    (hrows : 1 ≤ rows) (hcols : 1 ≤ cols) :
    (mineCount ≤ ((rows : Nat) : Int) * ((cols : Nat) : Int) →
        ∃ (picks : List (Nat × Nat)) (s' : GameState),
          plantAllMines (freshData rows cols mineCount) picks = some s')
      ∧ (((rows : Nat) : Int) * ((cols : Nat) : Int) < mineCount →
        ∀ picks : List (Nat × Nat),
          plantAllMines (freshData rows cols mineCount) picks = none) := by
  have hinv : (minedCount (freshData rows cols mineCount).grid : Int)
      = (freshData rows cols mineCount).stats.minesPlanted := by
    simp [freshData, minedCount_replicate]
  have htot : totalCells (freshData rows cols mineCount).grid = rows * cols := by
    simp [freshData, totalCells_replicate]
  constructor
  · intro hle
    have hmem : ∀ (r c : Nat) (rowL : List Cell) (cell : Cell),
        (freshData rows cols mineCount).grid[r]? = some rowL →
        rowL[c]? = some cell → cell.mined = false →
        (r, c) ∈ (List.range rows).product (List.range cols) := by
      intro r c rowL cell h1 h2 _
      have hrlt : r < rows := by
        have := (List.getElem?_eq_some.mp h1).1
        simpa [freshData] using this
      have hrow : rowL = List.replicate cols (⟨false⟩ : Cell) := by
        have : (List.replicate rows (List.replicate cols (⟨false⟩ : Cell)))[r]?
            = some (List.replicate cols (⟨false⟩ : Cell)) := by
          simp [List.getElem?_replicate, hrlt]
        simp only [freshData] at h1
        rw [this] at h1
        exact (Option.some.injEq _ _ ▸ h1).symm
      have hclt : c < cols := by
        have := (List.getElem?_eq_some.mp h2).1
        simpa [hrow] using this
      exact List.pair_mem_product.mpr ⟨List.mem_range.mpr hrlt, List.mem_range.mpr hclt⟩
    obtain ⟨s', hs'⟩ := plantAllMines_isSome
      ((List.range rows).product (List.range cols)) (freshData rows cols mineCount)
      hinv
      (by rw [htot]; push_cast; simpa [freshData] using hle)
      hmem
    exact ⟨_, s', hs'⟩
  · intro hgt picks
    exact plantAllMines_none_of_overfull picks _ hinv
      (by rw [htot]; push_cast; simpa [freshData] using hgt)

theorem plantAllMines_termination_iff_witness :
    (1 ≤ 1 ∧ 1 ≤ 1)
      ∧ (((1 : Int) ≤ ((1 : Nat) : Int) * ((1 : Nat) : Int) →
            ∃ (picks : List (Nat × Nat)) (s' : GameState),
              plantAllMines (freshData 1 1 1) picks = some s')
          ∧ (((1 : Nat) : Int) * ((1 : Nat) : Int) < (1 : Int) →
            ∀ picks : List (Nat × Nat),
              plantAllMines (freshData 1 1 1) picks = none)) :=
  ⟨⟨le_refl 1, le_refl 1⟩, plantAllMines_termination_iff 1 1 1 (le_refl 1) (le_refl 1)⟩

/-! ## Flood fill (C4, C5, C9) -/

theorem Reach.mono {s : GameState} {u v : Finset Coord} {a b : Coord}
    (huv : u ⊆ v) (h : Reach s u a b) : Reach s v a b := by
  induction h with
  | refl hp => exact Reach.refl _ ⟨huv hp.1, hp.2⟩
  | step p dir q _ hdir hq hgood ih =>
    exact Reach.step _ p dir q ih hdir hq ⟨huv hgood.1, hgood.2⟩

theorem Reach.good_start {s : GameState} {u : Finset Coord} {a b : Coord}
    (h : Reach s u a b) : goodMem s u a := by
  induction h with
  | refl hp => exact hp
  | step p dir q _ _ _ _ ih => exact ih

theorem Reach.good_end {s : GameState} {u : Finset Coord} {a b : Coord}
    (h : Reach s u a b) : goodMem s u b := by
  cases h with
  | refl hp => exact hp
  | step p dir q _ _ _ hgood => exact hgood

theorem Reach.trans_r {s : GameState} {u : Finset Coord} {a b d : Coord}
    (h1 : Reach s u a b) (h2 : Reach s u b d) : Reach s u a d := by
  induction h2 with
  | refl _ => exact h1
  | step p dir q hr hdir hq hgood ih => exact Reach.step a p dir q ih hdir hq hgood

theorem revealFuel_subset (s : GameState) :
    ∀ (fuel : Nat) (u : Finset Coord) (r c : Int),
      revealEmptyAdjacentFuel s fuel u r c ⊆ u := by
  intro fuel
  induction fuel with
  | zero => intro u r c; exact Finset.Subset.refl u
  | succ fuel ih =>
    intro u r c
    unfold revealEmptyAdjacentFuel
    split
    · exact Finset.Subset.refl u
    · dsimp only
      split
      · exact Finset.Subset.refl u
      · have hfold : ∀ (l : List Direction) (v : Finset Coord),
            l.foldl (fun acc dir =>
              revealEmptyAdjacentFuel s fuel acc (r + dir.y) (c + dir.x)) v ⊆ v := by
          intro l
          induction l with
          | nil => intro v; exact Finset.Subset.refl v
          | cons dir l ihl =>
            intro v
            exact (ihl _).trans (ih v (r + dir.y) (c + dir.x))
        exact (hfold directions _).trans (Finset.erase_subset _ _)

theorem revealFuel_notMem {s : GameState} {fuel : Nat} {u : Finset Coord} {r c : Int}
    {p : Coord} (h : p ∉ u) : p ∉ revealEmptyAdjacentFuel s fuel u r c :=
  fun hmem => h (revealFuel_subset s fuel u r c hmem)

theorem revealFold_notMem {s : GameState} {fuel : Nat} {p : Coord} :
    ∀ (l : List Direction) (v : Finset Coord) (r c : Int), p ∉ v →
      p ∉ l.foldl (fun acc dir =>
        revealEmptyAdjacentFuel s fuel acc (r + dir.y) (c + dir.x)) v := by
  intro l
  induction l with
  | nil => intro v r c h; exact h
  | cons dir l ihl =>
    intro v r c h
    exact ihl _ r c (revealFuel_notMem h)

theorem revealFuel_good_notMem (s : GameState) :
    ∀ (fuel : Nat) (u : Finset Coord) (r c : Int), 0 < fuel →
      0 ≤ r → r < (s.stats.rows : Int) → 0 ≤ c → c < (s.stats.cols : Int) →
      minedAt s r c = false → countSurroundingMines s r c = 0 →
      ((r, c) : Coord) ∉ revealEmptyAdjacentFuel s fuel u r c := by
  intro fuel u r c hfuel h1 h2 h3 h4 hmine hadj
  cases fuel with
  | zero => omega
  | succ fuel =>
    unfold revealEmptyAdjacentFuel
    rw [if_neg (by push_neg; omega)]
    dsimp only
    by_cases hmem : ((r, c) : Coord) ∈ u
    · rw [if_neg (by push_neg; exact ⟨hmem, by simp [hmine], by omega⟩)]
      exact revealFold_notMem directions _ r c (Finset.not_mem_erase _ _)
    · rw [if_pos (Or.inl hmem)]
      exact hmem

theorem revealFold_sound (s : GameState) (fuel : Nat)
    (hIH : ∀ (u : Finset Coord) (r c : Int) (p : Coord),
      p ∈ u → p ∉ revealEmptyAdjacentFuel s fuel u r c → Reach s u ((r, c) : Coord) p) :
    ∀ (l : List Direction) (v : Finset Coord) (r c : Int) (p : Coord),
      (∀ dir ∈ l, dir ∈ directions) →
      p ∈ v →
      p ∉ l.foldl (fun acc dir =>
        revealEmptyAdjacentFuel s fuel acc (r + dir.y) (c + dir.x)) v →
      ∃ (dir : Direction) (q : Coord) (w : Finset Coord),
        dir ∈ directions ∧ q = ((r + dir.y, c + dir.x) : Coord) ∧ w ⊆ v ∧ Reach s w q p := by
  intro l
  induction l with
  | nil => intro v r c p _ hmem hout; exact absurd hmem hout
  | cons dir l ihl =>
    intro v r c p hdirs hmem hout
    simp only [List.foldl_cons] at hout
    by_cases h1 : p ∈ revealEmptyAdjacentFuel s fuel v (r + dir.y) (c + dir.x)
    · obtain ⟨dir', q, w, hd, hq, hw, hr⟩ :=
        ihl _ r c p (fun d hd => hdirs d (List.mem_cons_of_mem _ hd)) h1 hout
      exact ⟨dir', q, w, hd, hq, hw.trans (revealFuel_subset s fuel v _ _), hr⟩
    · exact ⟨dir, ((r + dir.y, c + dir.x) : Coord), v, hdirs dir (List.mem_cons_self _ _),
        rfl, Finset.Subset.refl v, hIH v (r + dir.y) (c + dir.x) p hmem h1⟩

theorem revealFuel_sound (s : GameState) :
    ∀ (fuel : Nat) (u : Finset Coord) (r c : Int) (p : Coord),
      p ∈ u → p ∉ revealEmptyAdjacentFuel s fuel u r c →
      Reach s u ((r, c) : Coord) p := by
  intro fuel
  induction fuel with
  | zero => intro u r c p hmem hout; exact absurd hmem hout
  | succ fuel ih =>
    intro u r c p hmem hout
    unfold revealEmptyAdjacentFuel at hout
    by_cases hOOB : r < 0 ∨ (s.stats.rows : Int) ≤ r ∨ c < 0 ∨ (s.stats.cols : Int) ≤ c
    · rw [if_pos hOOB] at hout
      exact absurd hmem hout
    · rw [if_neg hOOB] at hout
      dsimp only at hout
      by_cases hstop : ((r, c) : Coord) ∉ u ∨ minedAt s r c = true
          ∨ 0 < countSurroundingMines s r c
      · rw [if_pos hstop] at hout
        exact absurd hmem hout
      · rw [if_neg hstop] at hout
        push_neg at hOOB hstop
        obtain ⟨hOOB1, hOOB2, hOOB3, hOOB4⟩ := hOOB
        obtain ⟨hrcmem, hrcmine, hrcadj⟩ := hstop
        have hgoodrc : goodMem s u ((r, c) : Coord) := by
          refine ⟨hrcmem, by simpa using hOOB1, by simpa using hOOB2,
            by simpa using hOOB3, by simpa using hOOB4, ?_, by dsimp only; omega⟩
          simpa using hrcmine
        by_cases hpeq : p = ((r, c) : Coord)
        · subst hpeq
          exact Reach.refl _ hgoodrc
        · have hpin : p ∈ u.erase ((r, c) : Coord) := Finset.mem_erase.mpr ⟨hpeq, hmem⟩
          obtain ⟨dir, q, w, hd, hq, hw, hrw⟩ :=
            revealFold_sound s fuel ih directions _ r c p (fun d hd => hd) hpin hout
          have hwu : w ⊆ u := hw.trans (Finset.erase_subset _ _)
          have hqgood : goodMem s u q := by
            have := (hrw.good_start)
            exact ⟨hwu this.1, this.2⟩
          have hstepq : Reach s u ((r, c) : Coord) q := by
            refine Reach.step _ ((r, c) : Coord) dir q (Reach.refl _ hgoodrc) hd ?_ hqgood
            simpa using hq
          exact hstepq.trans_r (hrw.mono hwu)

theorem revealFold_good_notMem (s : GameState) (fuel : Nat) (hfuel : 0 < fuel) :
    ∀ (l : List Direction) (v : Finset Coord) (r c : Int) (q : Coord),
      0 ≤ q.1 → q.1 < (s.stats.rows : Int) → 0 ≤ q.2 → q.2 < (s.stats.cols : Int) →
      minedAt s q.1 q.2 = false → countSurroundingMines s q.1 q.2 = 0 →
      (q ∉ v ∨ ∃ dir ∈ l, q = ((r + dir.y, c + dir.x) : Coord)) →
      q ∉ l.foldl (fun acc dir =>
        revealEmptyAdjacentFuel s fuel acc (r + dir.y) (c + dir.x)) v := by
  intro l
  induction l with
  | nil =>
    intro v r c q _ _ _ _ _ _ hcase
    rcases hcase with h | ⟨dir, hd, _⟩
    · exact h
    · exact absurd hd (List.not_mem_nil _)
  | cons dir l ihl =>
    intro v r c q hb1 hb2 hb3 hb4 hmine hadj hcase
    simp only [List.foldl_cons]
    rcases hcase with h | ⟨dir', hd', hq'⟩
    · exact ihl _ r c q hb1 hb2 hb3 hb4 hmine hadj (Or.inl (revealFuel_notMem h))
    · rcases List.mem_cons.mp hd' with heq | hmem'
      · rw [heq] at hq'
        have : q ∉ revealEmptyAdjacentFuel s fuel v (r + dir.y) (c + dir.x) := by
          rw [hq']
          have := revealFuel_good_notMem s fuel v (r + dir.y) (c + dir.x) hfuel
            (by rw [hq'] at hb1; simpa using hb1) (by rw [hq'] at hb2; simpa using hb2)
            (by rw [hq'] at hb3; simpa using hb3) (by rw [hq'] at hb4; simpa using hb4)
            (by rw [hq'] at hmine; simpa using hmine) (by rw [hq'] at hadj; simpa using hadj)
          exact this
        exact ihl _ r c q hb1 hb2 hb3 hb4 hmine hadj (Or.inl this)
      · exact ihl _ r c q hb1 hb2 hb3 hb4 hmine hadj (Or.inr ⟨dir', hmem', hq'⟩)

theorem revealFold_complete (s : GameState) (fuel : Nat)
    (hIH : ∀ (u : Finset Coord) (r c : Int) (p : Coord) (dir : Direction) (q : Coord),
      u.card < fuel → p ∈ u → p ∉ revealEmptyAdjacentFuel s fuel u r c →
      dir ∈ directions → q = ((p.1 + dir.y, p.2 + dir.x) : Coord) →
      0 ≤ q.1 → q.1 < (s.stats.rows : Int) → 0 ≤ q.2 → q.2 < (s.stats.cols : Int) →
      minedAt s q.1 q.2 = false → countSurroundingMines s q.1 q.2 = 0 →
      q ∉ revealEmptyAdjacentFuel s fuel u r c) :
    ∀ (l : List Direction) (v : Finset Coord) (r c : Int) (p : Coord)
      (dir : Direction) (q : Coord),
      v.card < fuel → p ∈ v →
      p ∉ l.foldl (fun acc d =>
        revealEmptyAdjacentFuel s fuel acc (r + d.y) (c + d.x)) v →
      dir ∈ directions → q = ((p.1 + dir.y, p.2 + dir.x) : Coord) →
      0 ≤ q.1 → q.1 < (s.stats.rows : Int) → 0 ≤ q.2 → q.2 < (s.stats.cols : Int) →
      minedAt s q.1 q.2 = false → countSurroundingMines s q.1 q.2 = 0 →
      q ∉ l.foldl (fun acc d =>
        revealEmptyAdjacentFuel s fuel acc (r + d.y) (c + d.x)) v := by
  intro l
  induction l with
  | nil =>
    intro v r c p dir q _ hmem hout
    exact absurd hmem hout
  | cons d l ihl =>
    intro v r c p dir q hcard hmem hout hdir hq hb1 hb2 hb3 hb4 hmine hadj
    simp only [List.foldl_cons] at hout ⊢
    by_cases h1 : p ∈ revealEmptyAdjacentFuel s fuel v (r + d.y) (c + d.x)
    · have hsub := revealFuel_subset s fuel v (r + d.y) (c + d.x)
      exact ihl _ r c p dir q (lt_of_le_of_lt (Finset.card_le_card hsub) hcard)
        h1 hout hdir hq hb1 hb2 hb3 hb4 hmine hadj
    · have hq1 : q ∉ revealEmptyAdjacentFuel s fuel v (r + d.y) (c + d.x) :=
        hIH v (r + d.y) (c + d.x) p dir q hcard hmem h1 hdir hq hb1 hb2 hb3 hb4 hmine hadj
      exact revealFold_notMem l _ r c hq1

theorem revealFuel_complete (s : GameState) :
    ∀ (fuel : Nat) (u : Finset Coord) (r c : Int) (p : Coord) (dir : Direction) (q : Coord),
      u.card < fuel → p ∈ u → p ∉ revealEmptyAdjacentFuel s fuel u r c →
      dir ∈ directions → q = ((p.1 + dir.y, p.2 + dir.x) : Coord) →
      0 ≤ q.1 → q.1 < (s.stats.rows : Int) → 0 ≤ q.2 → q.2 < (s.stats.cols : Int) →
      minedAt s q.1 q.2 = false → countSurroundingMines s q.1 q.2 = 0 →
      q ∉ revealEmptyAdjacentFuel s fuel u r c := by
  intro fuel
  induction fuel with
  | zero =>
    intro u r c p dir q hcard
    omega
  | succ fuel ih =>
    intro u r c p dir q hcard hmem hout hdir hq hb1 hb2 hb3 hb4 hmine hadj
    have hupos : 0 < u.card := Finset.card_pos.mpr ⟨p, hmem⟩
    have hfuelpos : 0 < fuel := by omega
    unfold revealEmptyAdjacentFuel at hout ⊢
    by_cases hOOB : r < 0 ∨ (s.stats.rows : Int) ≤ r ∨ c < 0 ∨ (s.stats.cols : Int) ≤ c
    · rw [if_pos hOOB] at hout
      exact absurd hmem hout
    · rw [if_neg hOOB] at hout ⊢
      dsimp only at hout ⊢
      by_cases hstop : ((r, c) : Coord) ∉ u ∨ minedAt s r c = true
          ∨ 0 < countSurroundingMines s r c
      · rw [if_pos hstop] at hout
        exact absurd hmem hout
      · rw [if_neg hstop] at hout ⊢
        push_neg at hstop
        obtain ⟨hrcmem, _, _⟩ := hstop
        have hcard' : (u.erase ((r, c) : Coord)).card < fuel := by
          rw [Finset.card_erase_of_mem hrcmem]
          omega
        by_cases hpeq : p = ((r, c) : Coord)
        · subst hpeq
          refine revealFold_good_notMem s fuel hfuelpos directions _ r c q
            hb1 hb2 hb3 hb4 hmine hadj (Or.inr ⟨dir, hdir, ?_⟩)
          simpa using hq
        · have hpin : p ∈ u.erase ((r, c) : Coord) := Finset.mem_erase.mpr ⟨hpeq, hmem⟩
          exact revealFold_complete s fuel ih directions _ r c p dir q
            hcard' hpin hout hdir hq hb1 hb2 hb3 hb4 hmine hadj

theorem reach_notMem (s : GameState) (fuel : Nat) (u : Finset Coord)
    (hcard : u.card < fuel) :
    ∀ (a p : Coord), Reach s u a p → p ∉ revealEmptyAdjacentFuel s fuel u a.1 a.2 := by
  intro a p h
  induction h with
  | refl hgood =>
    obtain ⟨hmem, hb1, hb2, hb3, hb4, hmine, hadj⟩ := hgood
    have hfuelpos : 0 < fuel :=
      lt_of_le_of_lt (Nat.zero_le _) (lt_of_le_of_lt (Nat.le_of_lt_succ
        (Nat.lt_succ_of_lt (Finset.card_pos.mpr ⟨_, hmem⟩))) hcard)
    have := revealFuel_good_notMem s fuel u _ _ hfuelpos hb1 hb2 hb3 hb4 hmine hadj
    simpa using this
  | step p' dir q hr hdir hq hgood ih =>
    obtain ⟨hqmem, hb1, hb2, hb3, hb4, hmine, hadj⟩ := hgood
    have hp'mem : p' ∈ u := hr.good_end.1
    exact revealFuel_complete s fuel u a.1 a.2 p' dir q hcard hp'mem ih hdir hq
      hb1 hb2 hb3 hb4 hmine hadj

theorem countSurroundingMines_pos_of_mined_nbr (s : GameState) (p : Coord)
    (dir : Direction) (hdir : dir ∈ directions) (q : Coord)
    (hq : q = ((p.1 + dir.y, p.2 + dir.x) : Coord))
    (hmine : minedAt s q.1 q.2 = true) :
    1 ≤ countSurroundingMines s p.1 p.2 := by
  rw [countSurroundingMines_eq_countP]
  refine Nat.one_le_iff_ne_zero.mpr (fun h0 => ?_)
  have hpos : 0 < directions.countP
      (fun dir => minedAt s (p.1 + dir.y) (p.2 + dir.x)) := by
    refine List.countP_pos.mpr ⟨dir, hdir, ?_⟩
    have : q.1 = p.1 + dir.y ∧ q.2 = p.2 + dir.x := by
      rw [hq]; exact ⟨rfl, rfl⟩
    rw [← this.1, ← this.2]
    simpa using hmine
  omega

/-- Claim C4 counterexample: on `borderState` the start (0,0) is unknown,
unmined and has adjacency 0, the cell (0,1) borders the revealed region
and has adjacency 1, yet the flood fill reveals only {(0,0)} — the
bordering numbered cell is not revealed. -/
theorem revealedSet_border_not_revealed :
    minedAt borderState 0 0 = false
      ∧ countSurroundingMines borderState 0 0 = 0
      ∧ ((0, 0) : Coord) ∈ borderState.dom.unknown
      ∧ countSurroundingMines borderState 0 1 = 1
      ∧ (∃ dir ∈ directions, ((0, 1) : Coord) = ((0 + dir.y, 0 + dir.x) : Coord))
      ∧ revealedSet borderState 0 0 = {((0, 0) : Coord)}
      ∧ ((0, 1) : Coord) ∉ revealedSet borderState 0 0 := by
  decide

/-- Claim C4 (amended): from an in-bounds, unknown, unmined,
zero-adjacency starting cell the flood fill reveals exactly the maximal
connected region of zero-adjacency cells reachable from the start
through unknown, unmined, zero-adjacency cells; bordering numbered cells
are left unrevealed. -/
theorem revealedSet_eq_reach (s : GameState) (r c : Int)
    (hb1 : 0 ≤ r) (hb2 : r < (s.stats.rows : Int))
    (hb3 : 0 ≤ c) (hb4 : c < (s.stats.cols : Int))
    (hmem : ((r, c) : Coord) ∈ s.dom.unknown)
    (hmine : minedAt s r c = false)
    (hadj : countSurroundingMines s r c = 0) :
    ∀ q : Coord, q ∈ revealedSet s r c ↔ Reach s s.dom.unknown ((r, c) : Coord) q := by
  intro q
  constructor
  · intro hq
    obtain ⟨hqmem, hqout⟩ := Finset.mem_sdiff.mp hq
    exact revealFuel_sound s _ _ r c q hqmem hqout
  · intro hq
    have hcard : s.dom.unknown.card < s.dom.unknown.card + 1 := Nat.lt_succ_self _
    have hout := reach_notMem s _ s.dom.unknown hcard ((r, c) : Coord) q hq
    exact Finset.mem_sdiff.mpr ⟨hq.good_end.1, hout⟩

theorem revealedSet_eq_reach_witness :
    (0 ≤ (0 : Int) ∧ (0 : Int) < (borderState.stats.rows : Int)
        ∧ 0 ≤ (0 : Int) ∧ (0 : Int) < (borderState.stats.cols : Int)
        ∧ ((0, 0) : Coord) ∈ borderState.dom.unknown
        ∧ minedAt borderState 0 0 = false
        ∧ countSurroundingMines borderState 0 0 = 0)
      ∧ (∀ q : Coord, q ∈ revealedSet borderState 0 0
          ↔ Reach borderState borderState.dom.unknown ((0, 0) : Coord) q) :=
  ⟨⟨by decide, by decide, by decide, by decide, by decide, by decide, by decide⟩,
    revealedSet_eq_reach borderState 0 0 (by decide) (by decide) (by decide)
      (by decide) (by decide) (by decide) (by decide)⟩

/-- Claim C5 counterexample: on `barrierState` the flood from the
zero-adjacency cell (0,0) reveals {(0,0)}; the boundary cell (0,1) is a
neighbour of a revealed cell, unrevealed, in-bounds, and has adjacency 0
(it is flagged, which the claim does not except). -/
theorem revealedSet_boundary_zero_example :
    countSurroundingMines barrierState 0 0 = 0
      ∧ ((0, 0) : Coord) ∈ revealedSet barrierState 0 0
      ∧ (∃ dir ∈ directions, ((0, 1) : Coord) = ((0 + dir.y, 0 + dir.x) : Coord))
      ∧ ((0, 1) : Coord) ∉ revealedSet barrierState 0 0
      ∧ (0 ≤ (0 : Int) ∧ (0 : Int) < (barrierState.stats.rows : Int)
          ∧ 0 ≤ (1 : Int) ∧ (1 : Int) < (barrierState.stats.cols : Int))
      ∧ countSurroundingMines barrierState 0 1 = 0 := by
  decide

/-- Claim C5 (amended): the set of cells revealed by a flood-fill call
never contains a mined cell, and every in-bounds neighbour of a revealed
cell that carried the `unknown` class at call time is either revealed
itself or has adjacency ≥ 1; the only other boundary cells are
out-of-bounds or were not `unknown` (flagged or already revealed). -/
theorem revealedSet_no_mine_boundary (s : GameState) (r c : Int)
    (hadj0 : countSurroundingMines s r c = 0) :
    (∀ p ∈ revealedSet s r c, minedAt s p.1 p.2 = false)
      ∧ (∀ p ∈ revealedSet s r c, ∀ dir ∈ directions,
          ∀ q : Coord, q = ((p.1 + dir.y, p.2 + dir.x) : Coord) →
          0 ≤ q.1 → q.1 < (s.stats.rows : Int) → 0 ≤ q.2 → q.2 < (s.stats.cols : Int) →
          q ∈ s.dom.unknown → q ∉ revealedSet s r c →
          1 ≤ countSurroundingMines s q.1 q.2) := by
  constructor
  · intro p hp
    obtain ⟨hpmem, hpout⟩ := Finset.mem_sdiff.mp hp
    exact (revealFuel_sound s _ _ r c p hpmem hpout).good_end.2.2.2.2.2.1
  · intro p hp dir hdir q hq hb1 hb2 hb3 hb4 hqmem hqnotrev
    obtain ⟨hpmem, hpout⟩ := Finset.mem_sdiff.mp hp
    have hqin : q ∈ (revealEmptyAdjacent s r c).dom.unknown := by
      by_contra hqout
      exact hqnotrev (Finset.mem_sdiff.mpr ⟨hqmem, hqout⟩)
    by_contra hlt
    have hqadj : countSurroundingMines s q.1 q.2 = 0 := by omega
    rcases hqmine : minedAt s q.1 q.2 with _ | _
    · have hcard : s.dom.unknown.card < s.dom.unknown.card + 1 := Nat.lt_succ_self _
      have := revealFuel_complete s (s.dom.unknown.card + 1) s.dom.unknown r c p dir q
        hcard hpmem hpout hdir hq hb1 hb2 hb3 hb4 hqmine hqadj
      exact this hqin
    · have hpadj : countSurroundingMines s p.1 p.2 = 0 :=
        (revealFuel_sound s _ _ r c p hpmem hpout).good_end.2.2.2.2.2.2
      have := countSurroundingMines_pos_of_mined_nbr s p dir hdir q hq hqmine
      omega

theorem revealedSet_no_mine_boundary_witness :
    countSurroundingMines barrierState 0 0 = 0
      ∧ (∀ p ∈ revealedSet barrierState 0 0, minedAt barrierState p.1 p.2 = false) :=
  ⟨by decide, (revealedSet_no_mine_boundary barrierState 0 0 (by decide)).1⟩

/-- Claim C9: the flood fill leaves the flagged class untouched and only
removes cells from the unknown set, so a flagged cell (which does not
carry the `unknown` class) is never revealed and blocks the recursion;
on `barrierState` the unmined zero-adjacency cell (0,2) stays unrevealed
behind the flag on (0,1). -/
theorem revealEmptyAdjacent_flag_frame :
    (∀ (s : GameState) (r c : Int),
        (revealEmptyAdjacent s r c).dom.flagged = s.dom.flagged)
      ∧ (∀ (s : GameState) (r c : Int) (p : Coord),
          p ∈ s.dom.flagged → p ∉ s.dom.unknown → p ∉ revealedSet s r c)
      ∧ (((0, 1) : Coord) ∈ barrierState.dom.flagged
          ∧ minedAt barrierState 0 2 = false
          ∧ countSurroundingMines barrierState 0 2 = 0
          ∧ ((0, 2) : Coord) ∈ barrierState.dom.unknown
          ∧ ((0, 2) : Coord) ∈ (revealEmptyAdjacent barrierState 0 0).dom.unknown
          ∧ revealedSet barrierState 0 0 = {((0, 0) : Coord)}) := by
  refine ⟨fun s r c => rfl, ?_, by decide⟩
  intro s r c p _ hu hmem
  exact hu (Finset.mem_sdiff.mp hmem).1

theorem revealEmptyAdjacent_flag_frame_witness :
    (revealEmptyAdjacent barrierState 0 0).dom.flagged = barrierState.dom.flagged
      ∧ (((0, 1) : Coord) ∈ barrierState.dom.flagged
          ∧ ((0, 1) : Coord) ∉ barrierState.dom.unknown
          ∧ ((0, 1) : Coord) ∉ revealedSet barrierState 0 0) :=
  ⟨revealEmptyAdjacent_flag_frame.1 barrierState 0 0, by decide, by decide,
    revealEmptyAdjacent_flag_frame.2.1 barrierState 0 0 ((0, 1) : Coord)
      (by decide) (by decide)⟩

/-! ## Validation outcomes (C1, C2) -/

theorem filter_card_ne_iff (u : Finset Coord) (f : Coord → Bool) :
    (u.filter fun p => f p = true).card ≠ u.card ↔ ∃ p ∈ u, f p = false := by
  constructor
  · intro h
    by_contra hno
    push_neg at hno
    have heq : u.filter (fun p => f p = true) = u := by
      refine Finset.filter_eq_self.mpr (fun p hp => ?_)
      rcases hf : f p with _ | _
      · exact absurd hf (hno p hp)
      · rfl
    exact h (by rw [heq])
  · rintro ⟨p, hp, hf⟩ h
    have heq : u.filter (fun p => f p = true) = u :=
      Finset.eq_of_subset_of_card_le (Finset.filter_subset _ _) (le_of_eq h.symm)
    have := (Finset.filter_eq_self.mp heq) p hp
    rw [hf] at this
    exact Bool.noConfusion this

theorem validate_result (s : GameState) (ha : isGameActive s = true) :
    (validate s).2
      = some (if (∃ p ∈ s.dom.flagged, minedAt s p.1 p.2 = false)
            ∨ ((s.dom.unknown.filter fun p => minedAt s p.1 p.2 = true).card ≠ 0
                ∧ (s.dom.unknown.filter fun p => minedAt s p.1 p.2 = true).card
                    ≠ s.dom.unknown.card)
          then "You Lose!" else "You Win!") := by
  unfold validate
  rw [if_neg (by simp [ha])]
  dsimp only
  by_cases hc : (s.dom.unknown.filter fun p => minedAt s p.1 p.2 = true).card ≠ 0
      ∧ (s.dom.unknown.filter fun p => minedAt s p.1 p.2 = true).card ≠ s.dom.unknown.card
  · rw [if_pos hc, if_pos (Or.inr hc)]
  · rw [if_neg hc]
    by_cases hf : ∃ p ∈ s.dom.flagged, minedAt s p.1 p.2 = false
    · have h1 : (if (∃ p ∈ s.dom.flagged, minedAt s p.1 p.2 = false)
            ∨ ((s.dom.unknown.filter fun p => minedAt s p.1 p.2 = true).card ≠ 0
                ∧ (s.dom.unknown.filter fun p => minedAt s p.1 p.2 = true).card
                    ≠ s.dom.unknown.card)
          then "You Lose!" else "You Win!") = "You Lose!" := if_pos (Or.inl hf)
      rw [h1]
      simp [hf]
    · have h1 : (if (∃ p ∈ s.dom.flagged, minedAt s p.1 p.2 = false)
            ∨ ((s.dom.unknown.filter fun p => minedAt s p.1 p.2 = true).card ≠ 0
                ∧ (s.dom.unknown.filter fun p => minedAt s p.1 p.2 = true).card
                    ≠ s.dom.unknown.card)
          then "You Lose!" else "You Win!") = "You Win!" :=
        if_neg (fun h => h.elim hf hc)
      rw [h1]
      simp [hf]

theorem validate_miss (s : GameState) (ha : isGameActive s = true)
    (hc : (s.dom.unknown.filter fun p => minedAt s p.1 p.2 = true).card ≠ 0
      ∧ (s.dom.unknown.filter fun p => minedAt s p.1 p.2 = true).card ≠ s.dom.unknown.card) :
    (validate s).1.dom.miss
      = s.dom.miss ∪ s.dom.unknown.filter (fun p => minedAt s p.1 p.2 = true) := by
  unfold validate
  rw [if_neg (by simp [ha])]
  dsimp only
  rw [if_pos hc]

/-- Claim C2: at an evaluation with no false flags and no directly
revealed mine, if the number of mined unknown cells is neither zero nor
the whole unknown count the outcome is "You Lose!" and every unknown
mined cell is marked missed; otherwise the outcome is "You Win!". -/
theorem validate_unknown_mine_split (s : GameState)
    (ha : isGameActive s = true)
    (hflags : ∀ p ∈ s.dom.flagged, minedAt s p.1 p.2 = true)
    (hnomine : s.dom.minedCls = ∅) :
    ((s.dom.unknown.filter fun p => minedAt s p.1 p.2 = true).card ≠ 0
        ∧ (s.dom.unknown.filter fun p => minedAt s p.1 p.2 = true).card
            ≠ s.dom.unknown.card →
      (validate s).2 = some "You Lose!"
        ∧ ∀ p ∈ s.dom.unknown, minedAt s p.1 p.2 = true → p ∈ (validate s).1.dom.miss)
      ∧ ((s.dom.unknown.filter fun p => minedAt s p.1 p.2 = true).card = 0
          ∨ (s.dom.unknown.filter fun p => minedAt s p.1 p.2 = true).card
              = s.dom.unknown.card →
        (validate s).2 = some "You Win!") := by
  have hnoflag : ¬ ∃ p ∈ s.dom.flagged, minedAt s p.1 p.2 = false := by
    rintro ⟨p, hp, hfp⟩
    rw [hflags p hp] at hfp
    exact Bool.noConfusion hfp
  constructor
  · intro hc
    refine ⟨?_, ?_⟩
    · rw [validate_result s ha, if_pos (Or.inr hc)]
    · intro p hp hm
      rw [validate_miss s ha hc]
      exact Finset.mem_union_right _ (Finset.mem_filter.mpr ⟨hp, hm⟩)
  · intro hc
    rw [validate_result s ha, if_neg (fun h => h.elim hnoflag
      (fun h2 => by rcases hc with h0 | h0; exacts [h2.1 h0, h2.2 h0]))]

theorem validate_unknown_mine_split_witness :
    (isGameActive missState = true
        ∧ (∀ p ∈ missState.dom.flagged, minedAt missState p.1 p.2 = true)
        ∧ missState.dom.minedCls = ∅)
      ∧ (((missState.dom.unknown.filter
            fun p => minedAt missState p.1 p.2 = true).card ≠ 0
          ∧ (missState.dom.unknown.filter
              fun p => minedAt missState p.1 p.2 = true).card
              ≠ missState.dom.unknown.card →
        (validate missState).2 = some "You Lose!"
          ∧ ∀ p ∈ missState.dom.unknown, minedAt missState p.1 p.2 = true →
              p ∈ (validate missState).1.dom.miss)
        ∧ ((missState.dom.unknown.filter
              fun p => minedAt missState p.1 p.2 = true).card = 0
            ∨ (missState.dom.unknown.filter
                fun p => minedAt missState p.1 p.2 = true).card
                = missState.dom.unknown.card →
          (validate missState).2 = some "You Win!")) :=
  ⟨⟨by decide, by decide, by decide⟩,
    validate_unknown_mine_split missState (by decide) (by decide) (by decide)⟩

/-- Claim C1 counterexample: on `mineClickState` the clicked cell (0,0)
holds a mine and is revealed by a plain click, yet the validation run by
the click declares "You Win!" — every unknown cell is mined, so the
loss condition of `events.validate` does not fire. -/
theorem cellClicked_mine_win_example :
    getCell mineClickState 0 0 = some ⟨true⟩
      ∧ isGameActive mineClickState = true
      ∧ (cellClicked mineClickState false 0 0).2 = some "You Win!" := by
  decide

/-- Claim C1 (amended): a plain click on an unknown, mined cell of an
active game triggers validation at once, and the outcome is a Loss
exactly when some flagged cell is unmined or some unknown cell is
unmined; when every unknown and every flagged cell is mined the outcome
is "You Win!" despite the directly revealed mine. -/
theorem cellClicked_mine_outcome (s : GameState) (r c : Int) (cell : Cell)
    (ha : isGameActive s = true)
    (hget : getCell s r c = some cell)
    (hmine : cell.mined = true)
    (hunk : ((r, c) : Coord) ∈ s.dom.unknown) :
    (cellClicked s false r c).2
      = some (if (∃ p ∈ s.dom.flagged, minedAt s p.1 p.2 = false)
            ∨ (∃ p ∈ s.dom.unknown, minedAt s p.1 p.2 = false)
          then "You Lose!" else "You Win!") := by
  unfold cellClicked
  dsimp only
  have hget1 : getCell { s with stats := { s.stats with clicks := s.stats.clicks + 1 } } r c
      = some cell := hget
  rw [hget1]
  dsimp only
  rw [if_neg (by simp), if_neg (by simp [hmine])]
  have hminedrc : minedAt s r c = true := by
    unfold minedAt
    rw [hget]
    exact hmine
  have hn0 : (s.dom.unknown.filter fun p => minedAt s p.1 p.2 = true).card ≠ 0 := by
    have hmemf : ((r, c) : Coord) ∈ s.dom.unknown.filter (fun p => minedAt s p.1 p.2 = true) :=
      Finset.mem_filter.mpr ⟨hunk, by simpa using hminedrc⟩
    exact Finset.card_ne_zero_of_mem hmemf
  have hiff : ((∃ p ∈ s.dom.flagged, minedAt s p.1 p.2 = false)
        ∨ ((s.dom.unknown.filter fun p => minedAt s p.1 p.2 = true).card ≠ 0
            ∧ (s.dom.unknown.filter fun p => minedAt s p.1 p.2 = true).card
                ≠ s.dom.unknown.card))
      ↔ ((∃ p ∈ s.dom.flagged, minedAt s p.1 p.2 = false)
        ∨ (∃ p ∈ s.dom.unknown, minedAt s p.1 p.2 = false)) := by
    refine or_congr_right ?_
    constructor
    · intro h
      exact (filter_card_ne_iff s.dom.unknown (fun p => minedAt s p.1 p.2)).mp h.2
    · intro h
      exact ⟨hn0, (filter_card_ne_iff s.dom.unknown (fun p => minedAt s p.1 p.2)).mpr h⟩
  have ha2 : isGameActive
      { active := s.active, grid := s.grid,
        stats := { clicks := s.stats.clicks + 1, cols := s.stats.cols, mines := s.stats.mines,
                   minesPlanted := s.stats.minesPlanted, rows := s.stats.rows,
                   seconds := s.stats.seconds },
        dom := { unknown := s.dom.unknown, flagged := s.dom.flagged,
                 sprite := insert ((r, c) : Coord) s.dom.sprite, empty := s.dom.empty,
                 minedCls := insert ((r, c) : Coord) s.dom.minedCls, miss := s.dom.miss,
                 numbered := s.dom.numbered } } = true := ha
  rw [validate_result _ ha2]
  exact congrArg some (if_congr hiff rfl rfl)

theorem cellClicked_mine_outcome_witness :
    (isGameActive missState = true
        ∧ getCell missState 0 0 = some ⟨true⟩
        ∧ (⟨true⟩ : Cell).mined = true
        ∧ ((0, 0) : Coord) ∈ missState.dom.unknown)
      ∧ (cellClicked missState false 0 0).2
          = some (if (∃ p ∈ missState.dom.flagged, minedAt missState p.1 p.2 = false)
                ∨ (∃ p ∈ missState.dom.unknown, minedAt missState p.1 p.2 = false)
              then "You Lose!" else "You Win!") :=
  ⟨⟨by decide, by decide, by decide, by decide⟩,
    cellClicked_mine_outcome missState 0 0 ⟨true⟩ (by decide) (by decide)
      (by decide) (by decide)⟩
